import Mathlib

/-!
Verification of the `gar` archive manager (cubetiqlabs/gar) against its
specification.  The Go source is shallowly embedded: pure string and path
manipulation is translated function-by-function from `path/filepath` calls as
the repository uses them (host separator `/`), the AES-GCM layer is embedded
at the granularity of sealed chunks with an ideal collision-free KDF and an
ideal AEAD, byte streams are `List Nat`, and the extraction worker pool of
`extractZip` is a small-step transition system.  Fallible operations return
`Except`/`Option`.
-/

namespace Gar

/-! ## Model of `path/filepath` (slash-separated hosts), as used by the repo -/

/-- Split a character list on `'/'`, keeping empty segments, as Go's path
cleaning conceptually does.  `splitOnSlash "a/b" = ["a", "b"]`. -/
def splitOnSlash : List Char → List (List Char)
  | [] => [[]]
  | c :: rest =>
    match splitOnSlash rest with
    | [] => [[]]
    | seg :: segs => if c = '/' then [] :: seg :: segs else (c :: seg) :: segs

/-- Join character-list segments with the given separator character, as
Go's `strings.Join` does. -/
def joinSep (sep : Char) : List (List Char) → List Char
  | [] => []
  | [x] => x
  | x :: xs => x ++ sep :: joinSep sep xs

/-- One step of Go `filepath.Clean`'s element processing: skip empty and `.`
elements, let `..` pop a non-`..` top (or vanish at a rooted start), and push
everything else. -/
def cleanStep (rooted : Bool) (st : List (List Char)) (c : List Char) :
    List (List Char) :=
  if c = [] ∨ c = ['.'] then st
  else if c = ['.', '.'] then
    match st with
    | [] => if rooted then [] else [['.', '.']]
    | top :: rest => if top = ['.', '.'] then c :: st else rest
  else c :: st

/-- Go `filepath.Clean` on a slash-separated host: shortest lexical
equivalent of the path, resolving `.` and `..` elements purely lexically. -/
def goClean (s : String) : String :=
  let cs := s.data
  if cs = [] then "."
  else
    let rooted := cs.head? = some '/'
    let stack := (splitOnSlash cs).foldl (cleanStep rooted) []
    let body := joinSep '/' stack.reverse
    if rooted then String.mk ('/' :: body)
    else if body = [] then "." else String.mk body

/-- Go `filepath.Join` of two elements: concatenate the non-empty elements
with a separator, then `Clean` the result. -/
def goJoin (a b : String) : String :=
  if a = "" ∧ b = "" then ""
  else if a = "" then goClean b
  else if b = "" then goClean a
  else goClean (String.mk (a.data ++ '/' :: b.data))

/-- Go `filepath.IsAbs` on a slash-separated host. -/
def goIsAbs (s : String) : Bool := s.data.head? = some '/'

/-- Go `filepath.Abs` relative to the working directory `cwd` (the only
failure mode of the real `Abs`, `Getwd` failing, is not modelled: the model
always has a working directory). -/
def goAbs (cwd s : String) : String :=
  if goIsAbs s then goClean s else goJoin cwd s

/-- Go `strings.HasPrefix s p`. -/
def goHasPref (s p : String) : Bool := p.data.isPrefixOf s.data

/-- Append one character to a string (used to form `outputPath + Separator`
as the source does). -/
def strPush (s : String) (c : Char) : String := String.mk (s.data ++ [c])

/-- The specification's notion of a destination lying inside an output root:
the root itself, or a descendant separated by a proper path boundary. -/
def withinRootB (root dest : String) : Bool :=
  dest = root || goHasPref dest (strPush root '/')

/-! ## The two path-traversal checks, from the source

`extractZipFile` (internal/cli/parser.go concatenation, zip extraction):
joins the entry name onto the output path, converts both to absolute, and
accepts only when the destination equals the root or extends `root + "/"`.

`extractTarGz` (src/unnamed/part_000): joins the entry name onto the output
path and accepts whenever `Clean(dest)` has `Clean(outputPath)` as a plain
string prefix, with no separator-boundary test. -/

/-- The security check of `extractZipFile`: `true` means the entry is
accepted. -/
def extractZipCheck (cwd outputPath name : String) : Bool :=
  let destPath := goJoin outputPath name
  let absDestPath := goAbs cwd destPath
  let absOutputPath := goAbs cwd outputPath
  goHasPref absDestPath (strPush absOutputPath '/') || absDestPath = absOutputPath

/-- The security check of `extractTarGz`: `true` means the entry is
accepted. -/
def extractTarGzCheck (outputPath name : String) : Bool :=
  let destPath := goJoin outputPath name
  goHasPref (goClean destPath) (goClean outputPath)

/-! ## Archive entries and per-entry extraction (zip and tar.gz)

Byte streams are `List Nat`.  A zip entry carries the central-directory
metadata the code reads (`Name`, `FileInfo().IsDir()`,
`UncompressedSize64`) together with its content stream; a tar entry carries
the header fields the code reads (`Name`, `Typeflag`, `Size`) and its
content. -/

/-- A zip archive entry as `extractZipFile` and `listZip` see it. -/
structure ZipEntryRec where
  name : String
  isDir : Bool
  uncompressedSize : Nat
  content : List Nat
deriving DecidableEq

/-- Tar entry type flags used by the repo (`tar.TypeDir` / `tar.TypeReg`). -/
inductive TarType where
  | dir
  | reg
deriving DecidableEq

/-- A tar archive entry as `extractTarGz` and `listTarGz` see it. -/
structure TarRec where
  name : String
  typeflag : TarType
  size : Nat
  content : List Nat
deriving DecidableEq

/-- `extractZipFile` for one entry: joins the name onto the output path,
runs the security check, and (for regular files) writes the content at the
joined destination.  Directory entries only create directories; only file
writes are recorded. -/
def extractZipFile (cwd : String) (f : ZipEntryRec) (outputPath : String) :
    Except String (List (String × List Nat)) :=
  let destPath := goJoin outputPath f.name
  if ¬ extractZipCheck cwd outputPath f.name then
    .error (String.append "illegal file path: " f.name)
  else if f.isDir then .ok []
  else .ok [(destPath, f.content)]

/-- The sequential entry loop of `extractTarGz`: entries are processed in
stream order; the first error aborts the loop, so later entries are never
reached.  Returns the list of file writes performed (in order) and the
error, if any. -/
def extractTarGz (entries : List TarRec) (outputPath : String) :
    List (String × List Nat) × Option String :=
  match entries with
  | [] => ([], none)
  | e :: rest =>
    let destPath := goJoin outputPath e.name
    if ¬ extractTarGzCheck outputPath e.name then
      ([], some (String.append "illegal file path: " e.name))
    else
      match e.typeflag with
      | .dir => extractTarGz rest outputPath
      | .reg =>
        let r := extractTarGz rest outputPath
        ((destPath, e.content) :: r.1, r.2)

/-! ## The AES-256-GCM layer (internal/crypto/encryption.go)

The cipher is embedded at the granularity of sealed chunks: one call to
`gcm.Seal` produces one `SealedChunk`, recorded with the key and nonce it
was sealed under (an ideal AEAD: `gcm.Open` succeeds exactly when key and
nonce match).  The PBKDF2-HMAC-SHA256 derivation (100000 iterations) is
idealised as the collision-free map to the pair (password, salt).  Random
salt and nonce generation is modelled by passing the drawn values as
arguments. -/

/-- The derived 256-bit key, idealised as the (password, salt) pair. -/
abbrev DerivedKey := String × List Nat

/-- `pbkdf2.Key(password, salt, 100000, 32, sha256.New)` idealised. -/
def pbkdf2Key (password : String) (salt : List Nat) : DerivedKey :=
  (password, salt)

/-- One output of `gcm.Seal`, tagged with the key and nonce used. -/
structure SealedChunk where
  key : DerivedKey
  nonce : List Nat
  plaintext : List Nat
deriving DecidableEq

/-- `gcm.Seal(nil, nonce, p, nil)`. -/
def gcmSeal (key : DerivedKey) (nonce : List Nat) (p : List Nat) :
    SealedChunk :=
  ⟨key, nonce, p⟩

/-- `gcm.Open(nil, nonce, c, nil)`: authenticates and returns the plaintext
exactly when the chunk was sealed under the same key and nonce. -/
def gcmOpen (key : DerivedKey) (nonce : List Nat) (c : SealedChunk) :
    Option (List Nat) :=
  if c.key = key ∧ c.nonce = nonce then some c.plaintext else none

/-- The state of an `EncryptedWriter`: the derived key, the single nonce
drawn at construction, and the ciphertext chunks forwarded (in order) to
the underlying writer. -/
structure EncryptedWriter where
  key : DerivedKey
  nonce : List Nat
  chunks : List SealedChunk
deriving DecidableEq

/-- `NewEncryptedWriter` with the random salt and nonce it drew passed in:
derives the key and stores the one nonce used for every later `Write`.
(The salt/nonce header write to the sink is modelled separately, in the
byte-level archive layout.) -/
def newEncryptedWriter (password : String) (salt nonce : List Nat) :
    EncryptedWriter :=
  ⟨pbkdf2Key password salt, nonce, []⟩

/-- `EncryptedWriter.Write`: seals `p` with the writer's stored nonce —
the same `ew.nonce` on every call — and forwards the ciphertext. -/
def EncryptedWriter.write (ew : EncryptedWriter) (p : List Nat) :
    EncryptedWriter :=
  { ew with chunks := ew.chunks ++ [gcmSeal ew.key ew.nonce p] }

/-- The state of an `EncryptedReader`: remaining source chunks, derived
key, and the nonce read from the stream head.  The underlying byte stream
is modelled at sealed-chunk granularity (one `Read` of the source delivers
one sealed chunk). -/
structure EncryptedReader where
  source : List SealedChunk
  key : DerivedKey
  nonce : List Nat
deriving DecidableEq

/-- `NewEncryptedReader`: re-derives the key from the password and the salt
read from the head of the stream, and stores the nonce that follows it. -/
def newEncryptedReader (password : String) (salt nonce : List Nat)
    (source : List SealedChunk) : EncryptedReader :=
  ⟨source, pbkdf2Key password salt, nonce⟩

/-- `EncryptedReader.Read`: pulls the next ciphertext chunk and opens it.
On authentication failure it returns zero plaintext bytes and the
`decryption failed` error; at end of stream the source `Open` of the empty
read also fails, as in the source. -/
def EncryptedReader.read (er : EncryptedReader) :
    Except String (List Nat) × EncryptedReader :=
  match er.source with
  | [] => (.error "decryption failed", er)
  | c :: rest =>
    let er2 := { er with source := rest }
    match gcmOpen er.key er.nonce c with
    | some pt => (.ok pt, er2)
    | none => (.error "decryption failed", er2)

/-- Advance a reader past `k` source chunks (the states reachable after `k`
underlying reads). -/
def EncryptedReader.advance (er : EncryptedReader) (k : Nat) :
    EncryptedReader :=
  { er with source := er.source.drop k }

/-- The ciphertext stream an `EncryptedWriter` built from `password`,
`salt` and `nonce` forwards after writing the plaintext chunks `ps`. -/
def sealStream (password : String) (salt nonce : List Nat)
    (ps : List (List Nat)) : List SealedChunk :=
  ps.map (gcmSeal (pbkdf2Key password salt) nonce)

/-! ## Compression: the directory walk and entry naming

`filepath.Walk` presents the subtree under the input path as a sequence of
visited nodes (the root first, then descendants in lexical order); each
visited node is identified here by its path segments relative to the walk
root.  `filepath.Rel(inputPath, path)` yields `"."` for the root itself and
the segments joined with the host separator otherwise.  The host path
separator is a parameter `sep` (`'/'` on Unix hosts, `'\\'` on Windows). -/

/-- One node visited by the walk: its path segments relative to the input
root (the root itself has `segs = []`), whether it is a directory, and its
content bytes (empty for directories). -/
structure FsEntry where
  segs : List String
  isDir : Bool
  content : List Nat
deriving DecidableEq

/-- The input of `Compress`: either a single file or a directory presented
as its walk sequence. -/
inductive FsInput where
  | file (content : List Nat)
  | dir (items : List FsEntry)
deriving DecidableEq

/-- `filepath.Rel(inputPath, path)` for a node at `segs` below the root:
`"."` for the root, otherwise the segments joined with the host
separator. -/
def relPath (sep : Char) (segs : List String) : String :=
  match segs with
  | [] => "."
  | _ => String.mk (joinSep sep (segs.map String.data))

/-- `filepath.ToSlash`: replace every host separator with `'/'`. -/
def goToSlash (sep : Char) (s : String) : String :=
  String.mk (s.data.map fun c => if c = sep then '/' else c)

/-- `filepath.Base` for a host with separator `sep`: strip trailing
separators, then keep everything after the final separator. -/
def goBase (sep : Char) (s : String) : String :=
  if s.data = [] then "."
  else
    let rcs := s.data.reverse.dropWhile (· = sep)
    if rcs = [] then String.mk [sep]
    else String.mk ((rcs.takeWhile (· ≠ sep)).reverse)

/-- The zip entry `compressZip` emits for one walked node: name is the
slash-converted relative path, directories get a trailing `"/"` and (as
Go's zip writer does for directory entries) zeroed sizes; file entries
record the exact copied content and its length. -/
def compressZipEntry (sep : Char) (it : FsEntry) : ZipEntryRec :=
  let name := goToSlash sep (relPath sep it.segs)
  if it.isDir then ⟨String.append name "/", true, 0, []⟩
  else ⟨name, false, it.content.length, it.content⟩

/-- The entry sequence `compressZip` writes: the walk for a directory
input, or a single entry named by the input path's base name for a file
input. -/
def compressZipEntries (sep : Char) (inputPath : String) :
    FsInput → List ZipEntryRec
  | .dir items => items.map (compressZipEntry sep)
  | .file c => [⟨goBase sep inputPath, false, c.length, c⟩]

/-- The tar entry `compressTarGz` emits for one walked node: the header
name is overwritten with the slash-converted relative path (so tar
directory names carry no trailing slash), the type flag and size come from
the file info. -/
def compressTarGzEntry (sep : Char) (it : FsEntry) : TarRec :=
  let name := goToSlash sep (relPath sep it.segs)
  if it.isDir then ⟨name, .dir, 0, []⟩
  else ⟨name, .reg, it.content.length, it.content⟩

/-- The entry sequence `compressTarGz` writes. -/
def compressTarGzEntries (sep : Char) (inputPath : String) :
    FsInput → List TarRec
  | .dir items => items.map (compressTarGzEntry sep)
  | .file c => [⟨goBase sep inputPath, .reg, c.length, c⟩]

/-! ## Listing (listZip, listTarGz)

`listZip` iterates the central directory (`zipReader.File`) and reports
`f.Name` and `f.UncompressedSize64`; it never opens an entry's content.
`listTarGz` advances through the tar headers (`tarReader.Next`) and reports
`header.Name` and `header.Size`; entry contents are skipped, never read. -/

/-- The (name, size) rows `listZip` reports. -/
def listZip (entries : List ZipEntryRec) : List (String × Nat) :=
  entries.map fun f => (f.name, f.uncompressedSize)

/-- The (name, size) rows `listTarGz` reports. -/
def listTarGz (entries : List TarRec) : List (String × Nat) :=
  entries.map fun h => (h.name, h.size)

/-! ## The Operator (internal/archive/archive.go)

`Compress` opens the output file, inserts `NewEncryptedWriter` when a
password is set, and delegates to the selected format's encoder; `Extract`
opens the input, inserts `NewEncryptedReader` when a password is set,
dispatches on the lower-cased extension of the input path (`.gz` means
tar.gz, everything else means zip), and — faithfully to the source — the
zip branch calls `extractZip(inputPath, ...)`, which reopens the raw file
by path, so the decryption reader is dropped there.

The container byte formats themselves belong to Go's standard library; they
are modelled at the level of their framing: a zip file is recognised by the
end-of-central-directory signature at its end, a gzip stream by its leading
magic bytes, and entries are length-framed.  The GCM seal of a byte string
is modelled as the string followed by a 16-byte tag (the real
`gcm.Overhead()`), the tag abstracted as a key- and nonce-dependent fill. -/

/-- `models.ArchiveFormat`. -/
inductive ArchiveFormat where
  | zip
  | targz
deriving DecidableEq

/-- `models.CompressionLevel`.  The level only selects the deflate/gzip
effort; it does not change the entry structure, so the byte model carries
it without interpreting it. -/
inductive CompressionLevel where
  | fastest
  | normal
  | best
deriving DecidableEq

/-- `models.ArchiveOptions`. -/
structure ArchiveOptions where
  format : ArchiveFormat
  compressionLevel : CompressionLevel
  password : String
  workers : Nat
  verbose : Bool
deriving DecidableEq

/-- Bytes of a string (entry names inside container framing). -/
def strBytes (s : String) : List Nat := s.data.map Char.toNat

/-- Lower-case one ASCII character (`strings.ToLower`). -/
def charLower (c : Char) : Char :=
  if 'A' ≤ c ∧ c ≤ 'Z' then Char.ofNat (c.toNat + 32) else c

/-- `strings.ToLower`. -/
def strToLower (s : String) : String := String.mk (s.data.map charLower)

/-- Helper for `goExt`: scan the reversed character list for the last dot,
stopping at a path separator. -/
def extOfRev : List Char → List Char → String
  | [], _ => ""
  | c :: rest, acc =>
    if c = '/' then ""
    else if c = '.' then String.mk ('.' :: acc)
    else extOfRev rest (c :: acc)

/-- `filepath.Ext`: the suffix starting at the final dot in the final
path element; empty if there is none. -/
def goExt (s : String) : String := extOfRev s.data.reverse []

/-- The 16-byte GCM authentication tag appended by `gcm.Seal`, abstracted
as a fill that depends on the key and nonce (only its length and
key-dependence are used). -/
def gcmTagBytes (key : DerivedKey) (nonce : List Nat) : List Nat :=
  List.replicate 16 (((strBytes key.1).sum + key.2.sum + nonce.sum) % 256)

/-- The byte string `gcm.Seal` forwards for the plaintext `p`: ciphertext
of the same length (abstracted) followed by the 16-byte tag. -/
def sealBytes (key : DerivedKey) (nonce : List Nat) (p : List Nat) :
    List Nat :=
  p ++ gcmTagBytes key nonce

/-- `gcm.Open` over one sealed byte string: checks the trailing tag under
the given key and nonce and strips it. -/
def openBytes (key : DerivedKey) (nonce : List Nat) (b : List Nat) :
    Option (List Nat) :=
  if 16 ≤ b.length ∧ b.drop (b.length - 16) = gcmTagBytes key nonce then
    some (b.take (b.length - 16))
  else none

/-- The local-file-header signature `PK\x03\x04`. -/
def zipLocalSig : List Nat := [80, 75, 3, 4]

/-- The end-of-central-directory signature `PK\x05\x06`, which
`zip.OpenReader` looks for at the end of the file. -/
def zipEocdSig : List Nat := [80, 75, 5, 6]

/-- Length-framed byte encoding of one zip entry, headed by the local
signature. -/
def zipEncodeEntry (e : ZipEntryRec) : List Nat :=
  zipLocalSig ++ [e.name.data.length] ++ strBytes e.name ++
    [if e.isDir then 1 else 0] ++ [e.uncompressedSize] ++
    [e.content.length] ++ e.content

/-- The byte stream the zip encoder writes for an entry sequence: framed
entries followed by the end-of-central-directory record. -/
def zipEncodeBytes (es : List ZipEntryRec) : List Nat :=
  (es.map zipEncodeEntry).flatten ++ zipEocdSig ++ [es.length]

/-- Fuel-bounded parser inverting `zipEncodeBytes`'s entry framing. -/
def zipParseEntries : Nat → List Nat → Option (List ZipEntryRec)
  | 0, _ => none
  | fuel + 1, b =>
    if zipEocdSig.isPrefixOf b then some []
    else
      match b with
      | 80 :: 75 :: 3 :: 4 :: nlen :: rest =>
        let name := String.mk ((rest.take nlen).map Char.ofNat)
        match rest.drop nlen with
        | isdir :: usize :: clen :: rest2 =>
          match zipParseEntries fuel (rest2.drop clen) with
          | some es => some (⟨name, isdir = 1, usize, rest2.take clen⟩ :: es)
          | none => none
        | _ => none
      | _ => none

/-- `zip.OpenReader` on the file's bytes: requires the
end-of-central-directory signature at the end of the file, then parses the
central directory into the entry sequence. -/
def zipOpenReaderBytes (b : List Nat) : Except String (List ZipEntryRec) :=
  if 5 ≤ b.length ∧ (b.drop (b.length - 5)).take 4 = zipEocdSig then
    match zipParseEntries (b.length + 1) b with
    | some es => .ok es
    | none => .error "zip: not a valid zip file"
  else .error "zip: not a valid zip file"

/-- The gzip stream magic `\x1f\x8b`, which `gzip.NewReader` requires at
the head of the stream. -/
def gzipMagic : List Nat := [31, 139]

/-- Tar type-flag byte (`'5'` directory, `'0'` regular file). -/
def tarTypeByte : TarType → Nat
  | .dir => 53
  | .reg => 48

/-- Length-framed byte encoding of one tar entry (header then content). -/
def tarEncodeEntry (e : TarRec) : List Nat :=
  [tarTypeByte e.typeflag, e.name.data.length] ++ strBytes e.name ++
    [e.size] ++ [e.content.length] ++ e.content

/-- The byte stream the tar.gz encoder writes: gzip magic, then the framed
tar entries. -/
def tarGzEncodeBytes (es : List TarRec) : List Nat :=
  gzipMagic ++ (es.map tarEncodeEntry).flatten

/-- Fuel-bounded parser inverting `tarEncodeEntry` framing. -/
def tarParseEntries : Nat → List Nat → Option (List TarRec)
  | 0, _ => none
  | _ + 1, [] => some []
  | fuel + 1, t :: nlen :: rest =>
    let tf : Option TarType :=
      if t = 53 then some .dir else if t = 48 then some .reg else none
    match tf with
    | none => none
    | some flag =>
      let name := String.mk ((rest.take nlen).map Char.ofNat)
      match rest.drop nlen with
      | size :: clen :: rest2 =>
        match tarParseEntries fuel (rest2.drop clen) with
        | some es => some (⟨name, flag, size, rest2.take clen⟩ :: es)
        | none => none
      | _ => none
  | _ + 1, _ => none

/-- `gzip.NewReader` then `tar.NewReader` over the stream bytes: requires
the gzip magic, then parses the tar entries. -/
def tarGzDecodeBytes (b : List Nat) : Except String (List TarRec) :=
  if gzipMagic.isPrefixOf b then
    match tarParseEntries (b.length + 1) (b.drop 2) with
    | some es => .ok es
    | none => .error "archive/tar: invalid tar header"
  else .error "gzip: invalid header"

/-- `Operator.Compress`: encode the input through the selected format
codec; when a password is set the codec writes through an
`EncryptedWriter`, so the file starts with the 32-byte salt and the
12-byte GCM nonce and continues with sealed container bytes (every sealed
chunk ends in a 16-byte tag, so the file's tail is a tag regardless of how
the codec's writes were chunked; the byte layout is modelled with the
container sealed as one chunk). -/
def operatorCompress (sep : Char) (inputPath : String) (input : FsInput)
    (opts : ArchiveOptions) (salt nonce : List Nat) : List Nat :=
  let container :=
    match opts.format with
    | .zip => zipEncodeBytes (compressZipEntries sep inputPath input)
    | .targz => tarGzEncodeBytes (compressTarGzEntries sep inputPath input)
  if opts.password ≠ "" then
    salt ++ nonce ++ sealBytes (pbkdf2Key opts.password salt) nonce container
  else container

/-- The goroutine loop of `extractZip` as a per-entry run: every entry is
attempted regardless of earlier failures, file writes accumulate, and the
one-slot error channel keeps the first error successfully sent (modelled
here in entry order; the operational schedule itself is the `PoolStep`
system below). -/
def extractZipEntriesRun (cwd : String) (entries : List ZipEntryRec)
    (outputPath : String) : List (String × List Nat) × Option String :=
  match entries with
  | [] => ([], none)
  | e :: rest =>
    let r := extractZipFile cwd e outputPath
    let rst := extractZipEntriesRun cwd rest outputPath
    match r with
    | .ok ws => (ws ++ rst.1, rst.2)
    | .error msg => (rst.1, some msg)

/-- `extractZip`: reopen the archive file by path (raw bytes, never the
decryption reader), parse the central directory, and run the worker-pool
extraction over its entries. -/
def extractZipBytes (cwd : String) (file : List Nat) (outputPath : String) :
    List (String × List Nat) × Option String :=
  match zipOpenReaderBytes file with
  | .error e => ([], some e)
  | .ok entries => extractZipEntriesRun cwd entries outputPath

/-- `Operator.Extract`: open the input file; when a password is set,
construct the decryption reader (failing if the file is too short to hold
the 32-byte salt and 12-byte nonce); dispatch on the lower-cased extension.
The `.gz` branch reads the container through the decryption reader (the
drained payload modelled as one sealed chunk); every other extension goes
to `extractZip`, which reads the raw file by path — the decryption reader
is dropped, faithfully to the source. -/
def operatorExtract (cwd inputPath outputPath : String) (file : List Nat)
    (opts : ArchiveOptions) : List (String × List Nat) × Option String :=
  if opts.password ≠ "" ∧ file.length < 44 then
    ([], some "decryption setup: unexpected EOF")
  else if strToLower (goExt inputPath) = ".gz" then
    let stream : Option (List Nat) :=
      if opts.password ≠ "" then
        openBytes (pbkdf2Key opts.password (file.take 32))
          ((file.drop 32).take 12) (file.drop 44)
      else some file
    match stream with
    | none => ([], some "decryption failed")
    | some b =>
      match tarGzDecodeBytes b with
      | .error e => ([], some e)
      | .ok entries => extractTarGz entries outputPath
  else extractZipBytes cwd file outputPath

/-! ## The extraction worker pool of `extractZip`, operationally

`extractZip` iterates the central directory; for each entry the main
goroutine acquires a slot on a semaphore channel of capacity
`opts.Workers` and spawns a goroutine that extracts the entry, reports a
failure immediately to stderr, tries a non-blocking send of the error on a
one-slot channel, and releases its slot on exit.  The main goroutine joins
on all tasks and returns the channel's error, if any.  This is modelled as
a small-step transition system over an abstract task type `τ` with a fixed
per-task outcome `run : τ → Option String`. -/

/-- The non-blocking `select { case errChan <- err: default: }` on the
one-slot error channel: the first successfully sent error is kept. -/
def errSend (chan r : Option String) : Option String :=
  match chan, r with
  | some e, _ => some e
  | none, r => r

/-- A state of `extractZip`'s pool: entries not yet spawned (in directory
order), free semaphore slots, tasks whose goroutine is running, finished
tasks with their outcomes (in completion order), and the one-slot error
channel. -/
structure PoolState (τ : Type) where
  pending : List τ
  semFree : Nat
  running : List τ
  done : List (τ × Option String)
  errChan : Option String

/-- The state in which `extractZip` starts: all entries pending, all `k`
semaphore slots free. -/
def initPool {τ : Type} (tasks : List τ) (k : Nat) : PoolState τ :=
  ⟨tasks, k, [], [], none⟩

/-- One step of the pool: the main goroutine acquires a free slot and
spawns the next pending entry's task, or an arbitrary running task
finishes — recording its outcome, trying the non-blocking error send, and
releasing its slot.  No step cancels or skips a task. -/
inductive PoolStep {τ : Type} (run : τ → Option String) :
    PoolState τ → PoolState τ → Prop where
  | spawn (t : τ) (rest : List τ) (s : PoolState τ) :
      s.pending = t :: rest → 0 < s.semFree →
      PoolStep run s
        ⟨rest, s.semFree - 1, s.running ++ [t], s.done, s.errChan⟩
  | finish (s : PoolState τ) (l r : List τ) (t : τ) :
      s.running = l ++ t :: r →
      PoolStep run s
        ⟨s.pending, s.semFree + 1, l ++ r, s.done ++ [(t, run t)],
          errSend s.errChan (run t)⟩

/-- Reachability along pool steps. -/
inductive PoolReach {τ : Type} (run : τ → Option String) (s0 : PoolState τ) :
    PoolState τ → Prop where
  | refl : PoolReach run s0 s0
  | tail {s s2 : PoolState τ} :
      PoolReach run s0 s → PoolStep run s s2 → PoolReach run s0 s2

/-- The file writes the tar.gz extraction loop performs for a run of
entries that all pass the check: one write per regular entry, at the
joined destination. -/
def tarWrites (entries : List TarRec) (outputPath : String) :
    List (String × List Nat) :=
  entries.filterMap fun e =>
    match e.typeflag with
    | .dir => none
    | .reg => some (goJoin outputPath e.name, e.content)

end Gar

section PathSanity

example : Gar.goClean "./../escape.txt" = "../escape.txt" := by decide
example : Gar.goClean "/out/../outside/f.txt" = "/outside/f.txt" := by decide
example : Gar.goClean "." = "." := by decide
example : Gar.goJoin "out" "../escape.txt" = "escape.txt" := by decide
example : Gar.goJoin "out" "/etc/passwd" = "out/etc/passwd" := by decide
example : Gar.goAbs "/work" "../escape.txt" = "/escape.txt" := by decide
example : Gar.extractTarGzCheck "." "../escape.txt" = true := by decide
example : Gar.extractTarGzCheck "/out" "../outside/f.txt" = true := by decide
example : Gar.extractZipCheck "/work" "." "../escape.txt" = false := by decide
example : Gar.extractZipCheck "/work" "/out" "../outside/f.txt" = false := by decide
example : Gar.extractZipCheck "/work" "out" "sub/a.txt" = true := by decide

end PathSanity

/-- C1: the claim that an entry named with a parent-traversal segment is
always rejected and never written outside the output root fails for the
tar.gz format: with output root `.`, the entry `../escape.txt` passes
`extractTarGz`'s prefix check (`"../escape.txt"` starts with `"."`), no
error is reported, and the file is written to `../escape.txt`, which
resolves outside the root (here with working directory `/work`). -/
theorem C1_theorem :
    Gar.extractTarGz [⟨"../escape.txt", .reg, 2, [104, 105]⟩] "." =
      ([("../escape.txt", [104, 105])], none) ∧
    Gar.withinRootB (Gar.goAbs "/work" ".") (Gar.goAbs "/work" "../escape.txt") =
      false := by
  decide

/-- C5: the claim that the path check accepts only proper-boundary
descendants of the root fails for the tar.gz format: with output root
`/out`, the entry `../outside/f.txt` resolves to `/outside/f.txt`, which is
a mere string-prefix extension of `/out` and is accepted by
`extractTarGz`'s check even though it lies outside the root.  (The zip
check, which appends a separator before comparing, rejects the same
entry.) -/
theorem C5_theorem :
    Gar.extractTarGzCheck "/out" "../outside/f.txt" = true ∧
    Gar.goJoin "/out" "../outside/f.txt" = "/outside/f.txt" ∧
    Gar.withinRootB "/out" "/outside/f.txt" = false ∧
    Gar.extractZipCheck "/work" "/out" "../outside/f.txt" = false := by
  decide

/-- C2: the claim that no nonce is reused across two distinct ciphertext
chunks of one archive fails: an `EncryptedWriter` stores a single nonce at
construction and seals every `Write` with it, so two writes produce two
distinct chunks sealed under the same nonce. -/
theorem C2_theorem :
    (((Gar.newEncryptedWriter "secret" (List.replicate 32 0)
          (List.replicate 12 0)).write [1]).write [2]).chunks.map
        Gar.SealedChunk.nonce =
      [List.replicate 12 0, List.replicate 12 0] ∧
    (((Gar.newEncryptedWriter "secret" (List.replicate 32 0)
          (List.replicate 12 0)).write [1]).write [2]).chunks.Pairwise
      (· ≠ ·) := by
  decide

/-- C4: decrypting a stream sealed under password `P` with any password
`Q ≠ P` fails: every `Read` on the decryption reader, from any reachable
reader state, returns the `decryption failed` error and zero plaintext
bytes — no partially-decrypted or unauthenticated data is ever returned. -/
theorem C4_theorem (P Q : String) (salt nonce : List Nat)
    (ps : List (List Nat)) (k : Nat) (h : Q ≠ P) :
    (((Gar.newEncryptedReader Q salt nonce
          (Gar.sealStream P salt nonce ps)).advance k).read).1 =
      .error "decryption failed" := by
  have key_ne : ∀ c ∈ Gar.sealStream P salt nonce ps,
      c.key ≠ Gar.pbkdf2Key Q salt := by
    intro c hc
    simp only [Gar.sealStream, List.mem_map] at hc
    obtain ⟨p, _, rfl⟩ := hc
    simp only [Gar.gcmSeal, Gar.pbkdf2Key, ne_eq, Prod.mk.injEq]
    exact fun hpq => absurd hpq.1.symm h
  have main : ∀ src : List Gar.SealedChunk,
      (∀ c ∈ src, c.key ≠ Gar.pbkdf2Key Q salt) →
      ((Gar.EncryptedReader.read ⟨src, Gar.pbkdf2Key Q salt, nonce⟩).1 =
        .error "decryption failed") := by
    intro src hsrc
    cases src with
    | nil => rfl
    | cons c rest =>
      have hc : c.key ≠ Gar.pbkdf2Key Q salt := hsrc c (by simp)
      simp [Gar.EncryptedReader.read, Gar.gcmOpen, hc]
  exact main _ (fun c hc =>
    key_ne c (List.drop_subset _ _ hc))

lemma map_slash_of_not_mem {sep : Char} :
    ∀ {cs : List Char}, (∀ c ∈ cs, c ≠ sep) →
      cs.map (fun c => if c = sep then '/' else c) = cs
  | [], _ => rfl
  | c :: cs, h => by
    have hc := h c (by simp)
    simp only [List.map_cons, if_neg hc]
    exact congrArg (c :: ·) (map_slash_of_not_mem fun x hx => h x (by simp [hx]))

lemma map_slash_joinSep (sep : Char) :
    ∀ css : List (List Char), (∀ cs ∈ css, ∀ c ∈ cs, c ≠ sep) →
      (Gar.joinSep sep css).map (fun c => if c = sep then '/' else c) =
        Gar.joinSep '/' css := by
  intro css
  induction css with
  | nil => intro _; rfl
  | cons x xs ih =>
    intro h
    cases xs with
    | nil => exact map_slash_of_not_mem (h x (by simp))
    | cons y ys =>
      have hx : ∀ c ∈ x, c ≠ sep := h x (by simp)
      show (x ++ sep :: Gar.joinSep sep (y :: ys)).map _ = _
      rw [List.map_append, List.map_cons, map_slash_of_not_mem hx, if_pos rfl,
        ih (fun cs hcs => h cs (List.mem_cons_of_mem x hcs))]
      rfl

lemma toSlash_relPath (sep : Char) (hsep : sep = '/' ∨ sep = '\\')
    (segs : List String) (h : ∀ s ∈ segs, sep ∉ s.data) :
    Gar.goToSlash sep (Gar.relPath sep segs) = Gar.relPath '/' segs := by
  cases segs with
  | nil =>
    have : ('.' : Char) ≠ sep := by
      rcases hsep with rfl | rfl <;> decide
    simp [Gar.relPath, Gar.goToSlash, this]
  | cons s rest =>
    show Gar.goToSlash sep (String.mk (Gar.joinSep sep ((s :: rest).map String.data))) = _
    unfold Gar.goToSlash
    rw [show (String.mk (Gar.joinSep sep ((s :: rest).map String.data))).data =
        Gar.joinSep sep ((s :: rest).map String.data) from rfl]
    rw [map_slash_joinSep sep _ (by
      intro cs hcs c hc
      obtain ⟨t, ht, rfl⟩ := List.mem_map.mp hcs
      exact fun hceq => h t ht (hceq ▸ hc))]
    rfl

/-- C8: for every compressed tree, whatever the host separator (`/` or
`\`), every emitted entry name is the forward-slash-joined relative path of
its node, and in the zip format every directory entry additionally carries
a trailing slash (its name's last character is `/`).  The hypothesis states
that node names do not contain the host separator, which no filesystem
permits. -/
theorem C8_theorem (sep : Char) (inputPath : String)
    (items : List Gar.FsEntry) (hsep : sep = '/' ∨ sep = '\\')
    (h : ∀ it ∈ items, ∀ s ∈ it.segs, sep ∉ s.data) :
    ((Gar.compressZipEntries sep inputPath (.dir items)).map
        Gar.ZipEntryRec.name =
      items.map fun it =>
        String.append (Gar.relPath '/' it.segs)
          (if it.isDir then "/" else "")) ∧
    ((Gar.compressTarGzEntries sep inputPath (.dir items)).map
        Gar.TarRec.name =
      items.map fun it => Gar.relPath '/' it.segs) ∧
    (∀ e ∈ Gar.compressZipEntries sep inputPath (.dir items),
      e.isDir = true → e.name.data.getLast? = some '/') := by
  have hname : ∀ it ∈ items,
      Gar.goToSlash sep (Gar.relPath sep it.segs) = Gar.relPath '/' it.segs :=
    fun it hit => toSlash_relPath sep hsep it.segs (h it hit)
  refine ⟨?_, ?_, ?_⟩
  · show (items.map (Gar.compressZipEntry sep)).map Gar.ZipEntryRec.name = _
    rw [List.map_map]
    refine List.map_congr_left fun it hit => ?_
    show (Gar.compressZipEntry sep it).name = _
    unfold Gar.compressZipEntry
    rw [hname it hit]
    cases hd : it.isDir
    · simp only [hd, Bool.false_eq_true, if_false]
      exact (String.append_empty _).symm
    · simp [hd]
  · show (items.map (Gar.compressTarGzEntry sep)).map Gar.TarRec.name = _
    rw [List.map_map]
    refine List.map_congr_left fun it hit => ?_
    show (Gar.compressTarGzEntry sep it).name = _
    unfold Gar.compressTarGzEntry
    rw [hname it hit]
    cases hd : it.isDir <;> simp
  · intro e he hdir
    obtain ⟨it, hit, rfl⟩ :=
      List.mem_map.mp (by simpa [Gar.compressZipEntries] using he)
    unfold Gar.compressZipEntry at hdir ⊢
    cases hisd : it.isDir with
    | false => simp [hisd] at hdir
    | true =>
      simp only [hisd, if_pos rfl]
      show ((Gar.goToSlash sep (Gar.relPath sep it.segs)).data ++
        ['/']).getLast? = some '/'
      exact List.getLast?_concat _

/-- Witness for `C8_theorem`, on a three-node tree compressed with the
Windows separator. -/
theorem C8_theorem_witness :
    ((('\\' : Char) = '/' ∨ ('\\' : Char) = '\\') ∧
      (∀ it ∈ [(⟨[], true, []⟩ : Gar.FsEntry), ⟨["a"], true, []⟩,
          ⟨["a", "b.txt"], false, [104]⟩],
        ∀ s ∈ it.segs, '\\' ∉ s.data)) ∧
    ((Gar.compressZipEntries '\\' "in"
        (.dir [⟨[], true, []⟩, ⟨["a"], true, []⟩,
          ⟨["a", "b.txt"], false, [104]⟩])).map Gar.ZipEntryRec.name =
      [(⟨[], true, []⟩ : Gar.FsEntry), ⟨["a"], true, []⟩,
          ⟨["a", "b.txt"], false, [104]⟩].map fun it =>
        String.append (Gar.relPath '/' it.segs)
          (if it.isDir then "/" else "")) := by
  refine ⟨⟨Or.inr rfl, by decide⟩, ?_⟩
  exact ( C8_theorem '\\' "in" [⟨[], true, []⟩, ⟨["a"], true, []⟩,
    ⟨["a", "b.txt"], false, [104]⟩] (Or.inr rfl) (by decide)).1

/-- C9: `listZip` reports, for every entry of the central directory, the
stored name and uncompressed size — which, for every archive this program
writes, is exactly the entry's content length — and its report is invariant
under any change of entry contents that keeps the directory metadata, i.e.
no content is materialized; `listTarGz` likewise reports the name and size
of every tar header and never reads the content that follows a header. -/
theorem C9_theorem (sep : Char) (inputPath : String) (input : Gar.FsInput)
    (zentries : List Gar.ZipEntryRec) (tentries : List Gar.TarRec)
    (f : Gar.ZipEntryRec → List Nat) (g : Gar.TarRec → List Nat) :
    (Gar.listZip (Gar.compressZipEntries sep inputPath input) =
      (Gar.compressZipEntries sep inputPath input).map fun e =>
        (e.name, e.content.length)) ∧
    (Gar.listTarGz (Gar.compressTarGzEntries sep inputPath input) =
      (Gar.compressTarGzEntries sep inputPath input).map fun e =>
        (e.name, e.content.length)) ∧
    (Gar.listZip (zentries.map fun e => { e with content := f e }) =
      Gar.listZip zentries) ∧
    (Gar.listTarGz (tentries.map fun e => { e with content := g e }) =
      Gar.listTarGz tentries) := by
  refine ⟨?_, ?_, ?_, ?_⟩
  · cases input with
    | file c => simp [Gar.compressZipEntries, Gar.listZip]
    | dir items =>
      show (items.map (Gar.compressZipEntry sep)).map
          (fun f => (f.name, f.uncompressedSize)) =
        ((items.map (Gar.compressZipEntry sep)).map fun e =>
          (e.name, e.content.length))
      rw [List.map_map, List.map_map]
      refine List.map_congr_left fun it _ => ?_
      unfold Gar.compressZipEntry
      cases hd : it.isDir <;> simp [hd]
  · cases input with
    | file c => simp [Gar.compressTarGzEntries, Gar.listTarGz]
    | dir items =>
      show (items.map (Gar.compressTarGzEntry sep)).map
          (fun h => (h.name, h.size)) =
        ((items.map (Gar.compressTarGzEntry sep)).map fun e =>
          (e.name, e.content.length))
      rw [List.map_map, List.map_map]
      refine List.map_congr_left fun it _ => ?_
      unfold Gar.compressTarGzEntry
      cases hd : it.isDir <;> simp [hd]
  · unfold Gar.listZip
    rw [List.map_map]
    rfl
  · unfold Gar.listTarGz
    rw [List.map_map]
    rfl

/-- C3: the round-trip claim fails when a password is set: compressing the
single file `data.txt` (content `"hi"`) to zip with password `"secret"`
and extracting with the same password yields an error and no files,
because `Operator.Extract`'s zip branch reads the raw encrypted file by
path (dropping the decryption reader), and the encrypted bytes are not a
valid zip archive.  The same pipeline without a password does reproduce
the tree, isolating the failure to the encryption layer. -/
theorem C3_theorem :
    Gar.operatorExtract "/w" "secure.zip" "out"
        (Gar.operatorCompress '/' "data.txt" (.file [104, 105])
          ⟨.zip, .normal, "secret", 4, false⟩ (List.replicate 32 0)
          (List.replicate 12 0))
        ⟨.zip, .normal, "secret", 4, false⟩ =
      ([], some "zip: not a valid zip file") ∧
    Gar.operatorExtract "/w" "plain.zip" "out"
        (Gar.operatorCompress '/' "data.txt" (.file [104, 105])
          ⟨.zip, .normal, "", 4, false⟩ (List.replicate 32 0)
          (List.replicate 12 0))
        ⟨.zip, .normal, "", 4, false⟩ =
      ([("out/data.txt", [104, 105])], none) := by
  exact ⟨by decide, by decide⟩

/-- C6: zip-format extraction does not depend on the password: for every
input file of at least 44 bytes (every zip archive with at least one entry
is longer than that, and 44 bytes is what the decryption-reader header read
consumes) whose path does not end in `.gz`, `Extract` produces the same
writes and the same error for any two password values, because its zip
branch reopens the raw file by path and never reads through the
password-derived decryption reader. -/
theorem C6_theorem (cwd inputPath outputPath : String) (file : List Nat)
    (fmt : Gar.ArchiveFormat) (lvl : Gar.CompressionLevel) (workers : Nat)
    (verbose : Bool) (p q : String)
    (hext : Gar.strToLower (Gar.goExt inputPath) ≠ ".gz")
    (hlen : 44 ≤ file.length) :
    Gar.operatorExtract cwd inputPath outputPath file
        ⟨fmt, lvl, p, workers, verbose⟩ =
      Gar.operatorExtract cwd inputPath outputPath file
        ⟨fmt, lvl, q, workers, verbose⟩ := by
  have h1 : ¬(p ≠ "" ∧ file.length < 44) :=
    fun h => absurd hlen (by omega)
  have h2 : ¬(q ≠ "" ∧ file.length < 44) :=
    fun h => absurd hlen (by omega)
  unfold Gar.operatorExtract
  rw [if_neg h1, if_neg h2, if_neg hext, if_neg hext]

/-- Witness for `C6_theorem` on a concrete 44-byte file and the password
pair (`"x"`, empty). -/
theorem C6_theorem_witness :
    (Gar.strToLower (Gar.goExt "a.zip") ≠ ".gz" ∧
      44 ≤ (List.replicate 44 0).length) ∧
    Gar.operatorExtract "/w" "a.zip" "out" (List.replicate 44 0)
        ⟨.zip, .normal, "x", 4, false⟩ =
      Gar.operatorExtract "/w" "a.zip" "out" (List.replicate 44 0)
        ⟨.zip, .normal, "", 4, false⟩ :=
  ⟨⟨by decide, by decide⟩,
    C6_theorem "/w" "a.zip" "out" (List.replicate 44 0) .zip .normal 4
      false "x" "" (by decide) (by decide)⟩

lemma pool_sem_invariant {τ : Type} (run : τ → Option String)
    (tasks : List τ) (k : Nat) :
    ∀ s, Gar.PoolReach run (Gar.initPool tasks k) s →
      s.running.length + s.semFree = k := by
  intro s hreach
  induction hreach with
  | refl => simp [Gar.initPool]
  | tail hr hstep ih =>
    cases hstep with
    | spawn t rest s1 hp hfree =>
      simp only [List.length_append, List.length_cons, List.length_nil] at ih ⊢
      omega
    | finish s1 l r t hrun =>
      rw [hrun] at ih
      simp only [List.length_append, List.length_cons, List.length_nil] at ih ⊢
      omega

lemma pool_task_invariant {τ : Type} [DecidableEq τ]
    (run : τ → Option String) (tasks : List τ) (k : Nat) :
    ∀ s, Gar.PoolReach run (Gar.initPool tasks k) s →
      List.Perm (s.pending ++ s.running ++ s.done.map Prod.fst) tasks ∧
      (s.errChan = none ↔ ∀ p ∈ s.done, p.2 = none) ∧
      (∀ p ∈ s.done, p.2 = run p.1) := by
  intro s hreach
  induction hreach with
  | refl =>
    exact ⟨by simp [Gar.initPool], by simp [Gar.initPool],
      by simp [Gar.initPool]⟩
  | @tail sMid sNew hr hstep ih =>
    obtain ⟨iha, ihb, ihc⟩ := ih
    cases hstep with
    | spawn t rest s1 hp hfree =>
      refine ⟨?_, by simpa using ihb, by simpa using ihc⟩
      rw [List.perm_iff_count]
      intro x
      have hcnt := (List.perm_iff_count.mp iha) x
      rw [hp] at hcnt
      simp only [List.count_append, List.count_cons, List.count_singleton,
        List.count_nil] at hcnt ⊢
      split_ifs at hcnt ⊢ <;> omega
    | finish s1 l r t hrun =>
      refine ⟨?_, ?_, ?_⟩
      · rw [List.perm_iff_count]
        intro x
        have hcnt := (List.perm_iff_count.mp iha) x
        rw [hrun] at hcnt
        simp only [List.count_append, List.count_cons, List.count_singleton,
          List.count_nil, List.map_append, List.map_cons, List.map_nil] at hcnt ⊢
        split_ifs at hcnt ⊢ <;> omega
      · cases hrt : run t with
        | none =>
          have hkeep : Gar.errSend sMid.errChan none = sMid.errChan := by
            cases sMid.errChan <;> rfl
          simp only [hrt, hkeep, List.forall_mem_append]
          rw [ihb]
          simp
        | some e =>
          have hne : ¬Gar.errSend sMid.errChan (some e) = none := by
            cases sMid.errChan <;> simp [Gar.errSend]
          simp only [hrt]
          constructor
          · intro h; exact (hne h).elim
          · intro hall
            have hfalse := hall (t, some e) (by simp)
            simp at hfalse
      · intro p hp
        rcases List.mem_append.mp hp with hold | hnew
        · exact ihc p hold
        · simp only [List.mem_singleton] at hnew
          subst hnew; rfl

/-- C7: during zip extraction, every terminal state of the worker pool has
attempted every entry (its finished outcomes are a permutation of the
entries), and the aggregated error is present exactly when some entry's
task failed — a per-entry failure never stops the remaining tasks; during
tar.gz extraction, the sequential loop returns on the first failing entry:
only the writes of the preceding entries happen, and the result is
independent of everything after the failing entry. -/
theorem C7_theorem :
    (∀ (τ : Type) [DecidableEq τ] (run : τ → Option String)
        (tasks : List τ) (k : Nat) (s : Gar.PoolState τ),
      Gar.PoolReach run (Gar.initPool tasks k) s →
      s.pending = [] → s.running = [] →
      List.Perm (s.done.map Prod.fst) tasks ∧
        (s.errChan = none ↔ ∀ t ∈ tasks, run t = none)) ∧
    (∀ (pre : List Gar.TarRec) (bad : Gar.TarRec) (post : List Gar.TarRec)
        (out : String),
      (∀ e ∈ pre, Gar.extractTarGzCheck out e.name = true) →
      Gar.extractTarGzCheck out bad.name = false →
      Gar.extractTarGz (pre ++ bad :: post) out =
        (Gar.tarWrites pre out,
          some (String.append "illegal file path: " bad.name))) := by
  constructor
  · intro τ _ run tasks k s hreach hpend hrunning
    obtain ⟨iha, ihb, ihc⟩ := pool_task_invariant run tasks k s hreach
    rw [hpend, hrunning] at iha
    simp only [List.nil_append] at iha
    refine ⟨iha, ?_⟩
    rw [ihb]
    constructor
    · intro hall t ht
      have ht2 : t ∈ s.done.map Prod.fst := (iha.mem_iff).mpr ht
      obtain ⟨p, hp, rfl⟩ := List.mem_map.mp ht2
      rw [← ihc p hp]
      exact hall p hp
    · intro hall p hp
      have : p.1 ∈ tasks := (iha.mem_iff).mp (List.mem_map_of_mem Prod.fst hp)
      rw [ihc p hp]
      exact hall p.1 this
  · intro pre bad post out hpre hbad
    induction pre with
    | nil =>
      simp only [List.nil_append]
      show Gar.extractTarGz (bad :: post) out = _
      simp [Gar.extractTarGz, hbad, Gar.tarWrites]
    | cons e pre ih =>
      have he := hpre e (by simp)
      have hrest : ∀ x ∈ pre, Gar.extractTarGzCheck out x.name = true :=
        fun x hx => hpre x (by simp [hx])
      show Gar.extractTarGz (e :: (pre ++ bad :: post)) out = _
      cases htf : e.typeflag with
      | dir =>
        simp [Gar.extractTarGz, he, htf, ih hrest, Gar.tarWrites,
          List.filterMap_cons]
      | reg =>
        simp [Gar.extractTarGz, he, htf, ih hrest, Gar.tarWrites,
          List.filterMap_cons]

/-- Witness for `C7_theorem`: a one-entry pool run whose task fails (the
error is aggregated, the entry was attempted), and a three-entry tar.gz
stream whose middle entry fails the check (only the first entry's write
happens). -/
theorem C7_theorem_witness :
    (List.Perm ([((), some "boom")].map Prod.fst) [()] ∧
      ((some "boom" : Option String) = none ↔
        ∀ t ∈ [()], (fun _ => some "boom") t = none)) ∧
    ((∀ e ∈ [(⟨"a.txt", .reg, 1, [7]⟩ : Gar.TarRec)],
        Gar.extractTarGzCheck "/out" e.name = true) ∧
      Gar.extractTarGzCheck "/out" "../escape" = false ∧
      Gar.extractTarGz
          ([⟨"a.txt", .reg, 1, [7]⟩] ++
            (⟨"../escape", .reg, 0, []⟩ : Gar.TarRec) ::
              [⟨"b.txt", .reg, 1, [8]⟩]) "/out" =
        ([("/out/a.txt", [7])],
          some (String.append "illegal file path: " "../escape"))) := by
  refine ⟨?_, by decide, by decide, ?_⟩
  · exact C7_theorem.1 Unit (fun _ => some "boom") [()] 1
      ⟨[], 1, [], [((), some "boom")], some "boom"⟩
      (Gar.PoolReach.tail
        (Gar.PoolReach.tail Gar.PoolReach.refl
          (Gar.PoolStep.spawn () [] (Gar.initPool [()] 1) rfl (by decide)))
        (Gar.PoolStep.finish ⟨[], 0, [()], [], none⟩ [] [] () rfl))
      rfl rfl
  · exact C7_theorem.2 [⟨"a.txt", .reg, 1, [7]⟩] ⟨"../escape", .reg, 0, []⟩
      [⟨"b.txt", .reg, 1, [8]⟩] "/out" (by decide) (by decide)

/-- C10: with `workerCount = k`, no reachable state of `extractZip`'s
worker pool has more than `k` tasks running at once (a task holds a
semaphore slot from spawn to completion, and the file-write phase happens
inside the task), so at most `k` extraction tasks are ever concurrently in
their file-write phase. -/
theorem C10_theorem {τ : Type} (run : τ → Option String) (tasks : List τ)
    (k : Nat) (s : Gar.PoolState τ) (_hk : 1 ≤ k)
    (hreach : Gar.PoolReach run (Gar.initPool tasks k) s) :
    s.running.length ≤ k := by
  have h := pool_sem_invariant run tasks k s hreach
  omega

/-- Witness for `C10_theorem` on a reachable one-worker state with one
running task. -/
theorem C10_theorem_witness :
    1 ≤ 1 ∧
    (⟨[], 0, [()], [], none⟩ : Gar.PoolState Unit).running.length ≤ 1 :=
  ⟨by decide,
    C10_theorem (fun _ => none) [()] 1 _ (by decide)
      (Gar.PoolReach.tail Gar.PoolReach.refl
        (Gar.PoolStep.spawn () [] (Gar.initPool [()] 1) rfl (by decide)))⟩

/-- Witness for `C4_theorem` at a concrete stream and password pair. -/
theorem C4_theorem_witness :
    ("wrong" : String) ≠ "secret" ∧
    (((Gar.newEncryptedReader "wrong" (List.replicate 32 0)
          (List.replicate 12 0)
          (Gar.sealStream "secret" (List.replicate 32 0)
            (List.replicate 12 0) [[1, 2]])).advance 0).read).1 =
      .error "decryption failed" :=
  ⟨by decide, C4_theorem "secret" "wrong" (List.replicate 32 0)
    (List.replicate 12 0) [[1, 2]] 0 (by decide)⟩
